import Mathlib

/-!
Verification of the configuration apply/merge/inheritance core of the
claude-prompt-manager repository, as a shallow embedding in Lean.

Conventions used throughout:
- JavaScript strings are Lean `String`s; JS arrays are Lean `List`s.
- A JS `Map` (insertion-ordered, unique keys) is an association list
  `List (String × α)`; `mapSet` updates in place keeping the position of an
  existing key and appends a new key at the end, exactly as `Map.set` does.
- The file system visible to the apply engine is a finite map from absolute
  path to file content (`Fs`); only regular files are recorded, so a
  successful `stat(..).isFile()` is a successful lookup.
- Async functions are modelled as pure functions (the code never interleaves
  two operations); exceptions are modelled with `Except` or with explicit
  error components threaded through the translation.
- The host OS is modelled as POSIX (separator "/", `isAbsolute` = leading
  "/"), which is what the spec's portability requirements are stated against.
-/

namespace Cpm

/-! ### JS `Map` as an ordered association list -/

/-- `Map.get`: value of the first (only) entry with the given key. -/
def mapFind? {α : Type} : List (String × α) → String → Option α
  | [], _ => none
  | (k', v) :: rest, k => if k' = k then some v else mapFind? rest k

/-- `Map.set`: replace in place if the key is present, else append. -/
def mapSet {α : Type} : List (String × α) → String → α → List (String × α)
  | [], k, v => [(k, v)]
  | (k', v') :: rest, k, v =>
    if k' = k then (k, v) :: rest else (k', v') :: mapSet rest k v

/-- `Map.delete`: remove the (unique) entry with the given key. -/
def mapErase {α : Type} : List (String × α) → String → List (String × α)
  | [], _ => []
  | (k', v') :: rest, k => if k' = k then rest else (k', v') :: mapErase rest k

/-! ### Character-level string utilities (models of the JS string methods) -/

/-- Split a character list at every occurrence of `sep`
(model of JS `String.prototype.split` with a one-character separator). -/
def splitChars (sep : Char) : List Char → List (List Char)
  | [] => [[]]
  | c :: rest =>
    if c = sep then [] :: splitChars sep rest
    else
      match splitChars sep rest with
      | [] => [[c]]
      | s :: ss => (c :: s) :: ss

/-- JS `s.split(sep)` for a one-character separator. -/
def splitOnChar (sep : Char) (s : String) : List String :=
  (splitChars sep s.data).map String.mk

/-- JS `Array.prototype.join(sep)`. -/
def joinWith (sep : String) : List String → String
  | [] => ""
  | [x] => x
  | x :: xs => x ++ sep ++ joinWith sep xs

/-- Does the first list occur as a leading run of the second?
(model of JS `String.prototype.startsWith` at the character level). -/
def listStartsWith : List Char → List Char → Bool
  | [], _ => true
  | _ :: _, [] => false
  | p :: ps, c :: cs => p = c && listStartsWith ps cs

/-- JS `s.startsWith(pre)`. -/
def jsStartsWith (s pre : String) : Bool :=
  listStartsWith pre.data s.data

/-- The whitespace characters of JS `\s` / `trim` that can occur in the
contents handled here (ASCII subset; the rarely-used Unicode space
characters are not modelled). -/
def isJsSpace (c : Char) : Bool :=
  c = ' ' || c = '\t' || c = '\n' || c = '\r' || c = Char.ofNat 11 || c = Char.ofNat 12

/-- JS `String.prototype.trim`. -/
def jsTrim (s : String) : String :=
  String.mk (((s.data.dropWhile isJsSpace).reverse.dropWhile isJsSpace).reverse)

/-! ### PathGuard: `resolveSafePath` (src/lib/config/path-safety.ts)

Node's `path.resolve` on POSIX is modelled segment-wise: split on "/",
drop empty and "." segments, let ".." pop the previous segment (staying at
the root when there is none), and render the result as an absolute path
with no trailing separator. -/

/-- The "/"-separated non-empty segments of a path string. -/
def segs (s : String) : List String :=
  ((splitChars '/' s.data).map String.mk).filter (fun t => t ≠ "")

/-- Normalize a segment list: "." is dropped, ".." pops (at the root it is
dropped), other segments are kept in order. -/
def normSegs (xs : List String) : List String :=
  xs.foldl
    (fun acc seg =>
      if seg = "." then acc
      else if seg = ".." then acc.dropLast
      else acc ++ [seg]) []

/-- Characters of the rendered absolute path "/" ++ x1 ++ "/" ++ x2 ++ …. -/
def renderChars : List String → List Char
  | [] => []
  | x :: xs => '/' :: (x.data ++ renderChars xs)

/-- Render a normalized segment list as an absolute path ("/" when empty). -/
def renderAbs (xs : List String) : String :=
  if xs = [] then "/" else String.mk (renderChars xs)

/-- Model of Node `path.resolve(s)` for an absolute `s`. -/
def normalizeAbs (s : String) : String :=
  renderAbs (normSegs (segs s))

/-- Model of Node `path.resolve(baseDir, relPath)` for an absolute `baseDir`
and non-absolute `relPath` (the only way the source calls it). -/
def jsResolve (baseDir relPath : String) : String :=
  normalizeAbs (baseDir ++ "/" ++ relPath)

/-- The three PATH_ERRORS kinds of path-safety.ts. -/
inductive PathErrorKind where
  | EMPTY
  | NOT_RELATIVE
  | OUTSIDE_BASE
deriving DecidableEq, Repr

/-- The thrown `Error` message for each kind (path-safety.ts appends the
offending path for the two non-empty kinds). -/
def pathErrorMessage : PathErrorKind → String → String
  | .EMPTY, _ => "Invalid path: empty or non-string"
  | .NOT_RELATIVE, p => "Invalid path: must be relative (" ++ p ++ ")"
  | .OUTSIDE_BASE, p => "Invalid path: outside base directory (" ++ p ++ ")"

/-- The regex `^[A-Za-z]:[\\/]` of path-safety.ts. -/
def isWindowsDrive (p : String) : Bool :=
  match p.data with
  | c0 :: c1 :: c2 :: _ => c0.isAlpha && c1 = ':' && (c2 = Char.ofNat 92 || c2 = '/')
  | _ => false

/-- The regex `^\\\\` of path-safety.ts (UNC form: two leading backslashes). -/
def isUnc (p : String) : Bool :=
  match p.data with
  | c0 :: c1 :: _ => c0 = Char.ofNat 92 && c1 = Char.ofNat 92
  | _ => false

/-- `resolveSafePath` of src/lib/config/path-safety.ts.

The `path.parse(relativePath).root` re-check of the source is a no-op on
POSIX (the root of a non-"/"-leading path is "", which is falsy, and a
"/"-leading path has already been rejected as absolute), so it introduces
no further branch here.  The typeof check cannot be expressed (inputs are
typed strings); the empty check is kept. -/
def resolveSafePath (baseDir relativePath : String) : Except PathErrorKind String :=
  if relativePath = "" then .error .EMPTY
  else if isWindowsDrive relativePath || isUnc relativePath then .error .NOT_RELATIVE
  else if jsStartsWith relativePath "/" then .error .NOT_RELATIVE
  else if jsResolve baseDir relativePath ≠ normalizeAbs baseDir ∧
          jsStartsWith (jsResolve baseDir relativePath) (normalizeAbs baseDir ++ "/") = false
  then .error .OUTSIDE_BASE
  else .ok (jsResolve baseDir relativePath)

end Cpm

namespace Cpm

/-! ### Merge result and file types (src/lib/config/types.ts, constants.ts) -/

/-- FileType of types.ts. -/
inductive FileType where
  | markdown
  | json
  | yaml
  | text
deriving DecidableEq, Repr

/-- MergeResult of types.ts. -/
structure MergeResult where
  success : Bool
  content : String
  hasConflicts : Bool
  conflictMarkers : Nat
deriving DecidableEq, Repr

/-- JS `String.prototype.toLowerCase` (ASCII; done at the character level). -/
def jsToLower (s : String) : String :=
  String.mk (s.data.map Char.toLower)

/-- Suffix of a character list starting at its last '.', if any. -/
def lastDotSuffix : List Char → Option (List Char)
  | [] => none
  | c :: rest =>
    match lastDotSuffix rest with
    | some s => some s
    | none => if c = '.' then some (c :: rest) else none

/-- `getFileType` of constants.ts: `filename.substring(filename.lastIndexOf("."))`
lowercased, looked up in FILE_TYPE_MAP with default "text".  When there is
no dot, `lastIndexOf` gives -1 and `substring(-1)` clamps to the whole
string, which then fails the lookup and yields "text". -/
def getFileType (filename : String) : FileType :=
  let ext :=
    jsToLower
      (match lastDotSuffix filename.data with
       | some cs => String.mk cs
       | none => filename)
  if ext = ".md" then .markdown
  else if ext = ".markdown" then .markdown
  else if ext = ".json" then .json
  else if ext = ".yaml" then .yaml
  else if ext = ".yml" then .yaml
  else .text

/-! ### Markdown sections (identical helper in src/lib/apply/merger.ts and in
the inheritance resolver; both files contain the same `parseMarkdownSections`,
embedded once here) -/

/-- The regex test `line.match(/^#{1,6}\s/)`: one to six leading '#'
followed by a whitespace character. -/
def isHeaderLine (l : String) : Bool :=
  let n := (l.data.takeWhile (fun c => c = '#')).length
  decide (1 ≤ n) && decide (n ≤ 6) &&
    (match l.data.drop n with
     | c :: _ => isJsSpace c
     | [] => false)

/-- The accumulation loop of `parseMarkdownSections`: `hdr`/`cur` are the
`currentHeader`/`currentContent` variables, `acc` the sections map. -/
def parseGo : List String → String → List String → List (String × String) → List (String × String)
  | [], hdr, cur, acc =>
    if hdr ≠ "" ∨ cur ≠ [] then mapSet acc hdr (joinWith "\n" cur) else acc
  | l :: ls, hdr, cur, acc =>
    if isHeaderLine l then
      parseGo ls l [] (if hdr ≠ "" ∨ cur ≠ [] then mapSet acc hdr (joinWith "\n" cur) else acc)
    else
      parseGo ls hdr (cur ++ [l]) acc

/-- `parseMarkdownSections`: ordered map from heading line (or "" for the
pre-heading block) to section body. -/
def parseMarkdownSections (content : String) : List (String × String) :=
  parseGo (splitOnChar '\n' content) "" [] []

/-- Rebuild markdown from the merged section map and trim, as both
`mergeMarkdown` implementations do. -/
def reconstructSections (m : List (String × String)) : String :=
  jsTrim (joinWith "\n"
    (m.foldl (fun lines hc => lines ++ (if hc.1 ≠ "" then [hc.1] else []) ++ [hc.2]) []))

/-! ### ContentMerger (src/lib/apply/merger.ts) -/

namespace Merger

/-- The section-overlay loop of merger.ts `mergeMarkdown`: overlay each
incoming section, recording a conflict when the heading is already present
with different content. -/
def overlayGo : List (String × String) → List (String × String) → List String →
    List (String × String) × List String
  | merged, [], conflicts => (merged, conflicts)
  | merged, (h, c) :: rest, conflicts =>
    let conflicts' :=
      if ((mapFind? merged h).any fun c' => c' ≠ c) then
        conflicts ++ [if h ≠ "" then h else "(top-level content)"]
      else conflicts
    overlayGo (mapSet merged h c) rest conflicts'

/-- `mergeMarkdown` of merger.ts. -/
def mergeMarkdown (existing newContent : String) : MergeResult :=
  let existingSections := parseMarkdownSections existing
  let newSections := parseMarkdownSections newContent
  let mc := overlayGo existingSections newSections []
  { success := mc.2.isEmpty
    content := reconstructSections mc.1
    hasConflicts := !mc.2.isEmpty
    conflictMarkers := mc.2.length }

/-- `createConflictResult` of merger.ts: wrap both sides in conflict
markers; `conflictMarkers` is the literal 1 of the source. -/
def createConflictResult (existing newContent : String) : MergeResult :=
  { success := false
    content := "<<<<<<< EXISTING\n" ++ existing ++ "\n=======\n" ++ newContent ++ "\n>>>>>>> NEW"
    hasConflicts := true
    conflictMarkers := 1 }

/-- `mergeText` of merger.ts. -/
def mergeText (existing newContent : String) : MergeResult :=
  if existing = newContent then
    { success := true, content := existing, hasConflicts := false, conflictMarkers := 0 }
  else createConflictResult existing newContent

/-- `mergeYaml` of merger.ts: wholesale replacement by the incoming
content, unconditionally. -/
def mergeYaml (_existing newContent : String) : MergeResult :=
  { success := true, content := newContent, hasConflicts := false, conflictMarkers := 0 }

end Merger

/-- Does a line contain seven consecutive less-than signs? -/
def startsWithSevenLt : List Char → Bool
  | '<' :: '<' :: '<' :: '<' :: '<' :: '<' :: '<' :: _ => true
  | _ => false

/-- Scan a line for an occurrence of "<<<<<<<". -/
def containsSevenLt : List Char → Bool
  | [] => false
  | c :: rest => startsWithSevenLt (c :: rest) || containsSevenLt rest

/-- `countConflictMarkers` of merger.ts: the number of matches of the
global regex `/<<<<<<<[^\n]*\n/g`.  Each match consumes from an occurrence
of "<<<<<<<" to the next newline, so the count is the number of
newline-terminated lines containing "<<<<<<<" (the final unterminated line
can never match). -/
def countConflictMarkers (content : String) : Nat :=
  (((splitOnChar '\n' content).dropLast).filter (fun l => containsSevenLt l.data)).length

/-- The number of lines of `content` that begin with "<<<<<<<" — the
conflict-block starts in the sense of the specification. -/
def conflictBlockStarts (content : String) : Nat :=
  ((splitOnChar '\n' content).filter (fun l => jsStartsWith l "<<<<<<<")).length

end Cpm

namespace Cpm

/-! ### JSON values (model of `JSON.parse` / `JSON.stringify` / `deepMerge`)

`deepMerge` appears, with an identical body, both in merger.ts and in the
inheritance resolver; it is embedded once here.  Objects are insertion-order
association lists with unique keys (as produced by `JSON.parse`, where a
duplicate key keeps the first position and the last value).  Numbers are
modelled as integers: the model parser rejects fractions and exponents,
which only narrows the set of strings that parse — both merge functions use
the same parser, so their comparison is unaffected. -/

inductive Jvalue where
  | null
  | bool (b : Bool)
  | num (n : Int)
  | str (s : String)
  | arr (items : List Jvalue)
  | obj (members : List (String × Jvalue))
deriving Repr

/-- The double-quote character. -/
def quoteC : Char := Char.ofNat 34

/-- The backslash character. -/
def backslashC : Char := Char.ofNat 92

/-- Value equality as JS `Set` sees it (SameValueZero): primitives compare
by value; objects and arrays compare by reference, and the elements reaching
the `Set` in `deepMerge` are freshly parsed, hence never identical. -/
def jsPrimEq : Jvalue → Jvalue → Bool
  | .null, .null => true
  | .bool a, .bool b => a = b
  | .num a, .num b => a = b
  | .str a, .str b => a = b
  | _, _ => false

/-- `[...new Set(xs)]`: keep the first occurrence of each (primitive) value. -/
def jsSetDedup : List Jvalue → List Jvalue
  | [] => []
  | x :: xs => x :: jsSetDedup (xs.filter (fun y => !jsPrimEq x y))
termination_by xs => xs.length
decreasing_by
  simp only [List.length_cons]
  exact Nat.lt_succ_of_le (List.length_filter_le _ _)

/-- The per-key loop of `deepMerge`: `res` is the evolving `result` object,
the second argument the remaining source entries.  Both values plain
objects → recursive merge; both arrays → deduplicated concatenation;
otherwise the source value wins. -/
def deepMergeObj : List (String × Jvalue) → List (String × Jvalue) → List (String × Jvalue)
  | res, [] => res
  | res, (k, sv) :: rest =>
    let newV :=
      match mapFind? res k, sv with
      | some (.obj tkv), .obj skv => .obj (deepMergeObj tkv skv)
      | some (.arr ta), .arr sa => .arr (jsSetDedup (ta ++ sa))
      | _, _ => sv
    deepMergeObj (mapSet res k newV) rest
termination_by _ s => sizeOf s
decreasing_by
  · simp only [List.cons.sizeOf_spec, Prod.mk.sizeOf_spec, Jvalue.obj.sizeOf_spec]
    omega
  · simp only [List.cons.sizeOf_spec]
    omega

/-- `deepMerge(target, source)` as called on freshly parsed values.  The
source types both arguments as records; for two parsed objects this is the
recursive key merge.  (For non-object top-level values the JS code would
spread them into a fresh object — a degenerate case not modelled; the
source value is returned instead.  Both callers use this same model.) -/
def deepMerge (target source : Jvalue) : Jvalue :=
  match target, source with
  | .obj t, .obj s => .obj (deepMergeObj t s)
  | _, _ => source

/-! #### `JSON.parse` (integer-number subset) -/

/-- JSON whitespace. -/
def isJsonWs (c : Char) : Bool :=
  c = ' ' || c = '\t' || c = '\n' || c = '\r'

/-- Skip JSON whitespace. -/
def skipWs (cs : List Char) : List Char :=
  cs.dropWhile isJsonWs

/-- One-character JSON string escapes (the `\uXXXX` form is not modelled;
a string using it simply fails to parse). -/
def unescapeChar (c : Char) : Option Char :=
  if c = quoteC then some quoteC
  else if c = backslashC then some backslashC
  else if c = '/' then some '/'
  else if c = 'n' then some '\n'
  else if c = 't' then some '\t'
  else if c = 'r' then some '\r'
  else if c = 'b' then some (Char.ofNat 8)
  else if c = 'f' then some (Char.ofNat 12)
  else none

/-- Parse the body of a JSON string after the opening quote; returns the
decoded characters and the input past the closing quote. -/
def parseStringBody : List Char → Option (List Char × List Char)
  | [] => none
  | c :: rest =>
    if c = quoteC then some ([], rest)
    else if c = backslashC then
      match rest with
      | [] => none
      | e :: rest' =>
        match unescapeChar e, parseStringBody rest' with
        | some u, some (s, r) => some (u :: s, r)
        | _, _ => none
    else
      match parseStringBody rest with
      | some (s, r) => some (c :: s, r)
      | none => none

/-- Digits to a natural number. -/
def digitsToNat (ds : List Char) : Nat :=
  ds.foldl (fun n c => n * 10 + (c.toNat - 48)) 0

/-- Parse an integer JSON number. -/
def parseNumber (cs : List Char) : Option (Jvalue × List Char) :=
  match cs with
  | '-' :: rest =>
    let ds := rest.takeWhile Char.isDigit
    if ds = [] then none else some (.num (-(digitsToNat ds : Int)), rest.drop ds.length)
  | _ =>
    let ds := cs.takeWhile Char.isDigit
    if ds = [] then none else some (.num (digitsToNat ds), cs.drop ds.length)

mutual

/-- Parse one JSON value (fuel bounds the recursion depth; `jsonParse`
supplies more fuel than any input can consume). -/
def parseJ : Nat → List Char → Option (Jvalue × List Char)
  | 0, _ => none
  | fuel + 1, cs0 =>
    match skipWs cs0 with
    | [] => none
    | 'n' :: 'u' :: 'l' :: 'l' :: rest => some (.null, rest)
    | 't' :: 'r' :: 'u' :: 'e' :: rest => some (.bool true, rest)
    | 'f' :: 'a' :: 'l' :: 's' :: 'e' :: rest => some (.bool false, rest)
    | c :: rest =>
      if c = quoteC then
        match parseStringBody rest with
        | some (s, r) => some (.str (String.mk s), r)
        | none => none
      else if c = '[' then
        match skipWs rest with
        | ']' :: rest2 => some (.arr [], rest2)
        | cs2 =>
          match parseElems fuel cs2 with
          | some (vs, r) => some (.arr vs, r)
          | none => none
      else if c = Char.ofNat 123 then
        match skipWs rest with
        | [] => none
        | d :: rest2 =>
          if d = Char.ofNat 125 then some (.obj [], rest2)
          else
            match parseMembers fuel (d :: rest2) with
            | some (ms, r) => some (.obj (ms.foldl (fun m p => mapSet m p.1 p.2) []), r)
            | none => none
      else parseNumber (c :: rest)

/-- Parse the elements of a non-empty JSON array, up to and including ']'. -/
def parseElems : Nat → List Char → Option (List Jvalue × List Char)
  | 0, _ => none
  | fuel + 1, cs =>
    match parseJ fuel cs with
    | none => none
    | some (v, rest) =>
      match skipWs rest with
      | ',' :: rest2 =>
        match parseElems fuel rest2 with
        | some (vs, r) => some (v :: vs, r)
        | none => none
      | ']' :: rest2 => some ([v], rest2)
      | _ => none

/-- Parse the members of a non-empty JSON object, up to and including the
closing brace; members are returned in textual order. -/
def parseMembers : Nat → List Char → Option (List (String × Jvalue) × List Char)
  | 0, _ => none
  | fuel + 1, cs =>
    match skipWs cs with
    | [] => none
    | c :: rest =>
      if c = quoteC then
        match parseStringBody rest with
        | none => none
        | some (k, r1) =>
          match skipWs r1 with
          | ':' :: r2 =>
            match parseJ fuel r2 with
            | none => none
            | some (v, r3) =>
              match skipWs r3 with
              | ',' :: r4 =>
                match parseMembers fuel r4 with
                | some (ms, r5) => some ((String.mk k, v) :: ms, r5)
                | none => none
              | d :: r4 =>
                if d = Char.ofNat 125 then some ([(String.mk k, v)], r4) else none
              | [] => none
          | _ => none
      else none

end

/-- `JSON.parse`, failing on trailing garbage. -/
def jsonParse (s : String) : Option Jvalue :=
  match parseJ (s.data.length + 2) s.data with
  | some (v, rest) => if skipWs rest = [] then some v else none
  | none => none

/-! #### `JSON.stringify(v, null, 2)` -/

/-- Escape one character for a JSON string literal (control characters
other than the common escapes are left as-is in this model). -/
def escapeJsonChar (c : Char) : List Char :=
  if c = quoteC then [backslashC, quoteC]
  else if c = backslashC then [backslashC, backslashC]
  else if c = '\n' then [backslashC, 'n']
  else if c = '\t' then [backslashC, 't']
  else if c = '\r' then [backslashC, 'r']
  else [c]

/-- A JSON string literal. -/
def quoteJson (s : String) : String :=
  String.mk (quoteC :: (s.data.map escapeJsonChar).flatten ++ [quoteC])

mutual

/-- `JSON.stringify(v, null, 2)` at the given current indentation. -/
def stringifyV : Jvalue → String → String
  | .null, _ => "null"
  | .bool b, _ => if b then "true" else "false"
  | .num n, _ => toString n
  | .str s, _ => quoteJson s
  | .arr [], _ => "[]"
  | .arr (x :: xs), ind =>
    "[\n" ++ stringifyItems (x :: xs) (ind ++ "  ") ++ "\n" ++ ind ++ "]"
  | .obj [], _ => "\x7b\x7d"
  | .obj (m :: ms), ind =>
    "\x7b\n" ++ stringifyMembers (m :: ms) (ind ++ "  ") ++ "\n" ++ ind ++ "\x7d"

/-- Array items, one per line. -/
def stringifyItems : List Jvalue → String → String
  | [], _ => ""
  | [x], ind => ind ++ stringifyV x ind
  | x :: y :: xs, ind => ind ++ stringifyV x ind ++ ",\n" ++ stringifyItems (y :: xs) ind

/-- Object members, one per line. -/
def stringifyMembers : List (String × Jvalue) → String → String
  | [], _ => ""
  | [(k, v)], ind => ind ++ quoteJson k ++ ": " ++ stringifyV v ind
  | (k, v) :: m :: ms, ind =>
    ind ++ quoteJson k ++ ": " ++ stringifyV v ind ++ ",\n" ++ stringifyMembers (m :: ms) ind

end

/-- `JSON.stringify(v, null, 2)`. -/
def stringify2 (v : Jvalue) : String :=
  stringifyV v ""

end Cpm

namespace Cpm

namespace Merger

/-- `mergeJson` of merger.ts: deep-merge the parsed objects; on a parse
failure of either side, fall through to the conflict-marker result. -/
def mergeJson (existing newContent : String) : MergeResult :=
  match jsonParse existing, jsonParse newContent with
  | some e, some n =>
    { success := true
      content := stringify2 (deepMerge e n)
      hasConflicts := false
      conflictMarkers := 0 }
  | _, _ => createConflictResult existing newContent

end Merger

/-- The type dispatch inside `mergeContent` of merger.ts (its `switch` on
the file type; the `default` branch is `mergeText`). -/
def mergeContentAt : FileType → String → String → MergeResult
  | .markdown, e, n => Merger.mergeMarkdown e n
  | .json, e, n => Merger.mergeJson e n
  | .yaml, e, n => Merger.mergeYaml e n
  | .text, e, n => Merger.mergeText e n

/-- `mergeContent` of merger.ts. -/
def mergeContent (existingContent newContent filePath : String) : MergeResult :=
  mergeContentAt (getFileType filePath) existingContent newContent

/-! ### Inheritance resolver (its own private merge helpers)

The resolver file defines its own `mergeJson` / `mergeYaml` /
`mergeMarkdown` returning bare strings; they are not the ContentMerger
functions above. -/

namespace Resolver

/-- Resolver `mergeJson`: deep-merge; if parsing fails, return the child
content (no conflict markers here). -/
def mergeJson (parentContent childContent : String) : String :=
  match jsonParse parentContent, jsonParse childContent with
  | some p, some c => stringify2 (deepMerge p c)
  | _, _ => childContent

/-- Resolver `mergeYaml`: `childContent || parentContent` — the child
content unless it is empty (falsy), in which case the parent is kept. -/
def mergeYaml (parentContent childContent : String) : String :=
  if childContent = "" then parentContent else childContent

/-- The overlay loop of the resolver `mergeMarkdown` (child sections
override parent sections; no conflict tracking). -/
def overlayGo : List (String × String) → List (String × String) → List (String × String)
  | merged, [] => merged
  | merged, (h, c) :: rest => overlayGo (mapSet merged h c) rest

/-- Resolver `mergeMarkdown`: section overlay, returning the content. -/
def mergeMarkdown (parentContent childContent : String) : String :=
  reconstructSections
    (overlayGo (parseMarkdownSections parentContent) (parseMarkdownSections childContent))

end Resolver

/-- ConfigurationFile of types.ts.  `type` is optional at runtime (the
resolver guards with `child.type || parent.type`), so it is an `Option`;
`override` and `exclude` are optional booleans, `false` when absent. -/
structure ConfigurationFile where
  path : String
  content : String
  type : Option FileType := none
  override : Bool := false
  exclude : Bool := false
deriving DecidableEq, Repr

/-- `mergeFiles` of the resolver: merge two same-path entries using the
child entry's type, falling back to the parent entry's type; the result
keeps the child path and carries no inheritance directives. -/
def mergeFiles (parent child : ConfigurationFile) : ConfigurationFile :=
  let type := child.type <|> parent.type
  let mergedContent :=
    match type with
    | some .json => Resolver.mergeJson parent.content child.content
    | some .yaml => Resolver.mergeYaml parent.content child.content
    | some .markdown => Resolver.mergeMarkdown parent.content child.content
    | _ => child.content
  { path := child.path, content := mergedContent, type := type }

/-- Configuration, reduced to the fields the core reads: the id, the
optional parent id (`extends` in the source, a Lean keyword), and the
content file list. -/
structure Configuration where
  id : String
  extendsId : Option String := none
  fileContents : List ConfigurationFile := []
deriving DecidableEq, Repr

/-- The body of the per-file loop in `mergeConfigurationChain`: exclude
removes the entry; override or a fresh path installs the entry verbatim;
otherwise the entry is merged into the existing one. -/
def applyFileEntry (m : List (String × ConfigurationFile)) (file : ConfigurationFile) :
    List (String × ConfigurationFile) :=
  if file.exclude then mapErase m file.path
  else
    match mapFind? m file.path with
    | none => mapSet m file.path file
    | some existing =>
      if file.override then mapSet m file.path file
      else mapSet m file.path (mergeFiles existing file)

/-- `mergeConfigurationChain`: fold the root→child configuration list over
the file map and return the remaining values in insertion order. -/
def mergeConfigurationChain (configs : List Configuration) : List ConfigurationFile :=
  (configs.foldl (fun m config => config.fileContents.foldl applyFileEntry m) []).map (fun p => p.2)

/-- The errors `resolveInheritance` throws.  `outOfFuel` is the model's
stand-in for a diverging walk; with a lookup table of `n` entries the walk
visits at most `n + 1` distinct configurations before the cycle check
fires, so `n + 2` fuel makes this constructor unreachable. -/
inductive ResolveError where
  | cycle (chain : List String)
  | parentNotFound (childId parentId : String)
  | outOfFuel (chain : List String)
deriving DecidableEq, Repr

/-- The `error.message` of each resolution error (errors.ts). -/
def resolveErrorMessage : ResolveError → String
  | .cycle chain => "Circular inheritance detected: " ++ joinWith " → " chain
  | .parentNotFound c p => "Parent configuration \"" ++ p ++ "\" not found for \"" ++ c ++ "\""
  | .outOfFuel _ => "Inheritance resolution did not terminate"

/-- The caller-supplied async `getConfig` lookup, modelled as a finite
table consulted by id. -/
def lookupConfig (lib : List (String × Configuration)) (id : String) : Option Configuration :=
  mapFind? lib id

/-- The chain-building `while` loop of `resolveInheritance`: the `seen`
set always holds exactly the ids already pushed on the chain, so the
membership test is against the chain. -/
def chainLoop (lib : List (String × Configuration)) :
    Nat → Configuration → List String → List Configuration →
    Except ResolveError (List String × List Configuration)
  | 0, _, chain, _ => .error (.outOfFuel chain)
  | fuel + 1, current, chain, configs =>
    if chain.contains current.id then .error (.cycle (chain ++ [current.id]))
    else
      let chain' := chain ++ [current.id]
      let configs' := configs ++ [current]
      match current.extendsId with
      | none => .ok (chain', configs')
      | some pid =>
        match lookupConfig lib pid with
        | none => .error (.parentNotFound current.id pid)
        | some parent => chainLoop lib fuel parent chain' configs'

/-- The resolved output: the child→root id chain and the folded file list. -/
structure ResolveOk where
  inheritanceChain : List String
  resolvedFiles : List ConfigurationFile
deriving DecidableEq, Repr

/-- `resolveInheritance` of the resolver: walk the `extends` chain
(child→root), then fold the configurations root→child. -/
def resolveInheritance (config : Configuration) (lib : List (String × Configuration)) :
    Except ResolveError ResolveOk :=
  match chainLoop lib (lib.length + 2) config [] [] with
  | .error e => .error e
  | .ok (chain, configs) =>
    .ok { inheritanceChain := chain, resolvedFiles := mergeConfigurationChain configs.reverse }

end Cpm

namespace Cpm

/-! ### Apply orchestration (src/lib/apply/index.ts, detector.ts,
config/writer.ts)

The file system is a finite map from absolute path to regular-file
content.  `ApplyEnv` also carries the failure behaviour of the two
syscalls that the code turns into `PermissionDeniedError`: `mkdirFail d`
means `mkdir(d, recursive)` throws EACCES, `writeFail p` means
`writeFile(p)` throws EACCES. -/

/-- The file-system state: absolute path ↦ content of a regular file. -/
abbrev Fs := List (String × String)

/-- Read a file if it exists. -/
def fsLookup (fs : Fs) (path : String) : Option String :=
  mapFind? fs path

/-- Write (create or overwrite) a file. -/
def fsWrite (fs : Fs) (path content : String) : Fs :=
  mapSet fs path content

/-- The environment of one apply call. -/
structure ApplyEnv where
  fs : Fs
  mkdirFail : String → Bool := fun _ => false
  writeFail : String → Bool := fun _ => false

/-- ApplyMode of types.ts. -/
inductive ApplyMode where
  | create
  | replace
  | merge
deriving DecidableEq, Repr

/-- ApplyOptions of types.ts (the unused `configId` is omitted). -/
structure ApplyOptions where
  targetPath : String
  mode : ApplyMode
  dryRun : Bool := false
  noInteractive : Bool := false
deriving Repr

/-- ConflictInfo of types.ts (the `resolution` field is only ever set by
the external interactive layer and is omitted). -/
structure ConflictInfo where
  path : String
  existingContent : String
  newContent : String
  mergedContent : Option String := none
deriving DecidableEq, Repr

/-- ApplyResult of types.ts. -/
structure ApplyResult where
  success : Bool
  filesCreated : List String
  filesModified : List String
  filesSkipped : List String
  conflicts : List ConflictInfo
  errors : List String
deriving DecidableEq, Repr

/-- The freshly initialised result record of `applyConfiguration`. -/
def emptyResult : ApplyResult :=
  { success := false, filesCreated := [], filesModified := [], filesSkipped := []
    conflicts := [], errors := [] }

/-- The message of `PermissionDeniedError` (errors.ts). -/
def permissionDeniedMessage (path : String) : String :=
  "Permission denied: cannot access \"" ++ path ++ "\""

/-- The message of a Node ENOENT read failure (abbreviated; this can only
arise in branches that are unreachable for the pure file-system model). -/
def enoentMessage (path : String) : String :=
  "ENOENT: no such file or directory, open " ++ path

/-- `fileExists` of detector.ts: resolve through PathGuard and `stat`; any
thrown error (path violation or missing file) yields `false`. -/
def fileExists (fs : Fs) (targetPath relativePath : String) : Bool :=
  match resolveSafePath targetPath relativePath with
  | .error _ => false
  | .ok full => (fsLookup fs full).isSome

/-- The accumulating loop of `getConflictingFiles` of detector.ts. -/
def getConflictingFilesGo (fs : Fs) (targetPath : String) :
    List String → List String → List String
  | [], acc => acc
  | f :: rest, acc =>
    if fileExists fs targetPath f then getConflictingFilesGo fs targetPath rest (acc ++ [f])
    else getConflictingFilesGo fs targetPath rest acc

/-- `getConflictingFiles` of detector.ts. -/
def getConflictingFiles (fs : Fs) (targetPath : String) (newFiles : List String) : List String :=
  getConflictingFilesGo fs targetPath newFiles []

/-- POSIX `dirname` of a normalized absolute path: drop the last segment. -/
def dirnameAbs (p : String) : String :=
  renderAbs ((segs p).dropLast)

/-- The per-file loop of `writeFilesToProject` of config/writer.ts: resolve
through PathGuard, ensure the parent directory, write; any failure is
caught and recorded as `Failed to write <path>: <message>` without
stopping the loop. -/
def writeFilesGo (env : ApplyEnv) (projectPath : String) :
    List ConfigurationFile → Fs → List String → List String →
    List String × List String × Fs
  | [], fs, created, errors => (created, errors, fs)
  | file :: rest, fs, created, errors =>
    match resolveSafePath projectPath file.path with
    | .error e =>
      writeFilesGo env projectPath rest fs created
        (errors ++ ["Failed to write " ++ file.path ++ ": " ++ pathErrorMessage e file.path])
    | .ok full =>
      if env.mkdirFail (dirnameAbs full) then
        writeFilesGo env projectPath rest fs created
          (errors ++ ["Failed to write " ++ file.path ++ ": " ++
            permissionDeniedMessage (dirnameAbs full)])
      else if env.writeFail full then
        writeFilesGo env projectPath rest fs created
          (errors ++ ["Failed to write " ++ file.path ++ ": " ++ permissionDeniedMessage full])
      else
        writeFilesGo env projectPath rest (fsWrite fs full file.content) (created ++ [file.path]) errors

/-- `writeFilesToProject` of config/writer.ts: returns the created paths,
the accumulated error strings, and the resulting file system. -/
def writeFilesToProject (env : ApplyEnv) (files : List ConfigurationFile)
    (projectPath : String) (fs : Fs) : List String × List String × Fs :=
  writeFilesGo env projectPath files fs [] []

/-- The conflict-info building loop of the interactive create branch of
`applyConfiguration` (reads each conflicting file from disk).  The second
component is a thrown exception message: unreachable here, because every
path in `conflictingFiles` has already passed `fileExists`, but modelled
faithfully — a throw aborts the loop and is caught by the outer handler
with the partial result kept. -/
def buildConflictInfos (fs : Fs) (targetPath : String) (conflictingFiles : List String) :
    List ConfigurationFile → List ConflictInfo → List ConflictInfo × Option String
  | [], acc => (acc, none)
  | file :: rest, acc =>
    if conflictingFiles.contains file.path then
      match resolveSafePath targetPath file.path with
      | .error e => (acc, some (pathErrorMessage e file.path))
      | .ok full =>
        match fsLookup fs full with
        | none => (acc, some (enoentMessage full))
        | some existingContent =>
          buildConflictInfos fs targetPath conflictingFiles rest
            (acc ++ [{ path := file.path, existingContent := existingContent
                       newContent := file.content }])
    else buildConflictInfos fs targetPath conflictingFiles rest acc

/-- The dry-run classification loop of `applyConfiguration`. -/
def dryRunLoop (mode : ApplyMode) (conflictingFiles : List String) :
    List ConfigurationFile → ApplyResult → ApplyResult
  | [], r => r
  | file :: rest, r =>
    if conflictingFiles.contains file.path then
      match mode with
      | .replace =>
        dryRunLoop mode conflictingFiles rest
          { r with filesModified := r.filesModified ++ [file.path] }
      | .merge =>
        dryRunLoop mode conflictingFiles rest
          { r with filesModified := r.filesModified ++ [file.path] }
      | .create =>
        dryRunLoop mode conflictingFiles rest
          { r with conflicts := r.conflicts ++
              [{ path := file.path, existingContent := "", newContent := file.content }] }
    else
      dryRunLoop mode conflictingFiles rest
        { r with filesCreated := r.filesCreated ++ [file.path] }

/-- The live classification loop of `applyConfiguration`: accumulates the
result record and the `filesToWrite` queue; the third component is a
thrown exception message (unreachable for conflicting paths, which have
passed `fileExists`, but modelled faithfully). -/
def liveLoop (fs : Fs) (targetPath : String) (mode : ApplyMode) (conflictingFiles : List String) :
    List ConfigurationFile → ApplyResult → List ConfigurationFile →
    ApplyResult × List ConfigurationFile × Option String
  | [], r, w => (r, w, none)
  | file :: rest, r, w =>
    if conflictingFiles.contains file.path then
      match mode with
      | .replace =>
        liveLoop fs targetPath mode conflictingFiles rest
          { r with filesModified := r.filesModified ++ [file.path] } (w ++ [file])
      | .merge =>
        match resolveSafePath targetPath file.path with
        | .error e => (r, w, some (pathErrorMessage e file.path))
        | .ok full =>
          match fsLookup fs full with
          | none => (r, w, some (enoentMessage full))
          | some existingContent =>
            let mergeResult := mergeContent existingContent file.content file.path
            if mergeResult.hasConflicts then
              liveLoop fs targetPath mode conflictingFiles rest
                { r with conflicts := r.conflicts ++
                    [{ path := file.path, existingContent := existingContent
                       newContent := file.content, mergedContent := some mergeResult.content }] } w
            else
              liveLoop fs targetPath mode conflictingFiles rest
                { r with filesModified := r.filesModified ++ [file.path] }
                (w ++ [{ file with content := mergeResult.content }])
      | .create =>
        liveLoop fs targetPath mode conflictingFiles rest
          { r with filesSkipped := r.filesSkipped ++ [file.path] } w
    else
      liveLoop fs targetPath mode conflictingFiles rest
        { r with filesCreated := r.filesCreated ++ [file.path] } (w ++ [file])

/-- The outcome of `applyConfiguration`: either a returned `ApplyResult`
or a thrown `ConflictDetectedError` carrying the conflicting paths.  Both
carry the resulting file system (unchanged in the thrown case — the throw
happens before any write). -/
inductive ApplyOutcome where
  | completed (result : ApplyResult) (fs : Fs)
  | conflictThrown (conflictingFiles : List String) (fs : Fs)
deriving DecidableEq, Repr

/-- `applyConfiguration` of src/lib/apply/index.ts. -/
def applyConfiguration (config : Configuration) (options : ApplyOptions)
    (lib : List (String × Configuration)) (env : ApplyEnv) : ApplyOutcome :=
  match resolveInheritance config lib with
  | .error e =>
    .completed { emptyResult with errors := [resolveErrorMessage e] } env.fs
  | .ok resolvedConfig =>
    let filesToApply := resolvedConfig.resolvedFiles
    if env.mkdirFail options.targetPath then
      .completed { emptyResult with errors := [permissionDeniedMessage options.targetPath] } env.fs
    else
      let conflictingFiles :=
        getConflictingFiles env.fs options.targetPath (filesToApply.map (fun f => f.path))
      if options.mode = .create ∧ conflictingFiles ≠ [] then
        if options.noInteractive then .conflictThrown conflictingFiles env.fs
        else
          match buildConflictInfos env.fs options.targetPath conflictingFiles filesToApply [] with
          | (cs, none) => .completed { emptyResult with conflicts := cs } env.fs
          | (cs, some msg) =>
            .completed { emptyResult with conflicts := cs, errors := [msg] } env.fs
      else if options.dryRun then
        let r := dryRunLoop options.mode conflictingFiles filesToApply emptyResult
        .completed { r with success := true } env.fs
      else
        match liveLoop env.fs options.targetPath options.mode conflictingFiles
            filesToApply emptyResult [] with
        | (r, _, some msg) =>
          .completed { r with errors := r.errors ++ [msg] } env.fs
        | (r, filesToWrite, none) =>
          let writeOut :=
            if filesToWrite ≠ [] then
              writeFilesToProject env filesToWrite options.targetPath env.fs
            else ([], [], env.fs)
          let r' := { r with errors := r.errors ++ writeOut.2.1 }
          .completed { r' with success := r'.errors.isEmpty && r'.conflicts.isEmpty } writeOut.2.2

/-- A conflict resolution delivered by the interactive layer. -/
inductive Resolution where
  | keep
  | replace
  | merge
  | skip
deriving DecidableEq, Repr

/-- One externally resolved conflict. -/
structure ResolvedConflict where
  path : String
  resolution : Resolution
  content : String
deriving DecidableEq, Repr

/-- The partitioning loop of `applyWithResolvedConflicts`. -/
def resolvedLoop :
    List ResolvedConflict → ApplyResult → List ConfigurationFile →
    ApplyResult × List ConfigurationFile
  | [], r, w => (r, w)
  | resolved :: rest, r, w =>
    if resolved.resolution = .skip ∨ resolved.resolution = .keep then
      resolvedLoop rest { r with filesSkipped := r.filesSkipped ++ [resolved.path] } w
    else
      resolvedLoop rest { r with filesModified := r.filesModified ++ [resolved.path] }
        (w ++ [{ path := resolved.path, content := resolved.content, type := some .text }])

/-- `applyWithResolvedConflicts` of src/lib/apply/index.ts. -/
def applyWithResolvedConflicts (resolvedConflicts : List ResolvedConflict)
    (targetPath : String) (env : ApplyEnv) : ApplyResult × Fs :=
  match resolvedLoop resolvedConflicts emptyResult [] with
  | (r, filesToWrite) =>
    let writeOut :=
      if filesToWrite ≠ [] then writeFilesToProject env filesToWrite targetPath env.fs
      else ([], [], env.fs)
    let r' := { r with errors := r.errors ++ writeOut.2.1 }
    ({ r' with success := r'.errors.isEmpty }, writeOut.2.2)

end Cpm

namespace Cpm

/-- Does the attempt to write relative path `p` into `targetPath` fail
(throw inside the per-file try of `writeFilesToProject`)?  Either the
PathGuard resolution throws, or the directory-ensure / file write hits
EACCES. -/
def writeAttemptFails (env : ApplyEnv) (targetPath p : String) : Bool :=
  match resolveSafePath targetPath p with
  | .error _ => true
  | .ok full => env.mkdirFail (dirnameAbs full) || env.writeFail full

/-- The keys of an association list, in order. -/
def mapKeys {α : Type} (m : List (String × α)) : List String :=
  m.map (fun p => p.1)

end Cpm

namespace Cpm

/-! ## Helper lemmas about the JS map and list loops -/

theorem mapFind?_mapSet_ne {α : Type} (m : List (String × α)) (k' k : String) (v : α)
    (h : k' ≠ k) : mapFind? (mapSet m k' v) k = mapFind? m k := by
  induction m with
  | nil => simp [mapSet, mapFind?, h]
  | cons hd tl ih =>
    obtain ⟨k0, v0⟩ := hd
    by_cases h0 : k0 = k'
    · subst h0
      simp [mapSet, mapFind?, h]
    · simp only [mapSet, if_neg h0]
      by_cases h1 : k0 = k
      · simp [mapFind?, h1]
      · simp [mapFind?, h1, ih]

theorem mapKeys_mapSet {α : Type} (m : List (String × α)) (k : String) (v : α) :
    mapKeys (mapSet m k v) = if k ∈ mapKeys m then mapKeys m else mapKeys m ++ [k] := by
  induction m with
  | nil => simp [mapSet, mapKeys]
  | cons hd tl ih =>
    obtain ⟨k0, v0⟩ := hd
    by_cases h0 : k0 = k
    · subst h0
      simp [mapSet, mapKeys]
    · simp only [mapSet, if_neg h0, mapKeys, List.map_cons, List.mem_cons]
      rw [mapKeys] at ih
      rw [ih]
      by_cases h1 : k ∈ tl.map (fun p => p.1)
      · simp [h1, Ne.symm h0, mapKeys]
      · simp [h1, Ne.symm h0, mapKeys]

theorem mapKeys_mapSet_nodup {α : Type} (m : List (String × α)) (k : String) (v : α)
    (h : (mapKeys m).Nodup) : (mapKeys (mapSet m k v)).Nodup := by
  rw [mapKeys_mapSet]
  by_cases hm : k ∈ mapKeys m
  · simp [hm, h]
  · simp only [hm, if_false]
    exact List.Nodup.append h (List.nodup_singleton k) (by simpa using hm)

/-! ## C9: the conflict detector -/

theorem getConflictingFilesGo_eq_filter (fs : Fs) (targetPath : String)
    (files acc : List String) :
    getConflictingFilesGo fs targetPath files acc =
      acc ++ files.filter (fun f => fileExists fs targetPath f) := by
  induction files generalizing acc with
  | nil => simp [getConflictingFilesGo]
  | cons f rest ih =>
    by_cases h : fileExists fs targetPath f
    · simp [getConflictingFilesGo, h, ih]
    · simp [getConflictingFilesGo, h, ih]

theorem getConflictingFiles_eq_filter (fs : Fs) (targetPath : String) (files : List String) :
    getConflictingFiles fs targetPath files =
      files.filter (fun f => fileExists fs targetPath f) := by
  simpa using getConflictingFilesGo_eq_filter fs targetPath files []

/-- Claim C9: for every target directory and list of candidate relative
paths, the conflict detector returns exactly the candidates that resolve
safely inside the target (PathGuard succeeding) and exist there as regular
files, preserving the input order (it equals the filter of the candidate
list, hence is a sublist); a candidate whose PathGuard resolution fails
makes `fileExists` false and is skipped while processing continues. -/
theorem C9_conflict_detector (fs : Fs) (targetPath : String) (files : List String) :
    getConflictingFiles fs targetPath files =
      files.filter (fun f => fileExists fs targetPath f) ∧
    (getConflictingFiles fs targetPath files).Sublist files ∧
    (∀ f, fileExists fs targetPath f =
      (match resolveSafePath targetPath f with
       | .error _ => false
       | .ok full => (fsLookup fs full).isSome)) := by
  refine ⟨getConflictingFiles_eq_filter fs targetPath files, ?_, fun f => rfl⟩
  rw [getConflictingFiles_eq_filter]
  exact List.filter_sublist files

end Cpm

namespace Cpm

/-! ## C8: create mode, non-interactive, with conflicts -/

/-- Claim C8: in create mode with `noInteractive`, when at least one
resolved file already exists at the target, the whole apply throws
`ConflictDetectedError` carrying exactly the conflicting paths (the
existing candidates, in order) and the file system is unchanged — zero
files written. -/
theorem C8_create_noninteractive_conflict (config : Configuration) (options : ApplyOptions)
    (lib : List (String × Configuration)) (env : ApplyEnv) (resolved : ResolveOk)
    (hres : resolveInheritance config lib = .ok resolved)
    (hmkdir : env.mkdirFail options.targetPath = false)
    (hmode : options.mode = .create)
    (hni : options.noInteractive = true)
    (hcf : getConflictingFiles env.fs options.targetPath
      (resolved.resolvedFiles.map (fun f => f.path)) ≠ []) :
    applyConfiguration config options lib env =
      .conflictThrown
        (getConflictingFiles env.fs options.targetPath
          (resolved.resolvedFiles.map (fun f => f.path))) env.fs ∧
    getConflictingFiles env.fs options.targetPath (resolved.resolvedFiles.map (fun f => f.path)) =
      (resolved.resolvedFiles.map (fun f => f.path)).filter
        (fun f => fileExists env.fs options.targetPath f) := by
  refine ⟨?_, getConflictingFiles_eq_filter _ _ _⟩
  unfold applyConfiguration
  rw [hres]
  simp only [hmkdir, Bool.false_eq_true, if_false, hmode, hni, hcf, ne_eq,
    not_false_iff, and_true, if_true]

/-! ## Loop lemmas for the apply orchestrator -/

theorem dryRunLoop_errors (mode : ApplyMode) (cf : List String) :
    ∀ (files : List ConfigurationFile) (r : ApplyResult),
      (dryRunLoop mode cf files r).errors = r.errors := by
  intro files
  induction files with
  | nil => intro r; rfl
  | cons file rest ih =>
    intro r
    by_cases hc : file.path ∈ cf
    · cases mode <;> simp [dryRunLoop, hc, ih]
    · simp [dryRunLoop, hc, ih]

theorem dryRunLoop_conflicts (mode : ApplyMode) (cf : List String)
    (hmc : mode = .create → cf = []) :
    ∀ (files : List ConfigurationFile) (r : ApplyResult),
      (dryRunLoop mode cf files r).conflicts = r.conflicts := by
  intro files
  induction files with
  | nil => intro r; rfl
  | cons file rest ih =>
    intro r
    by_cases hc : file.path ∈ cf
    · cases hmode : mode with
      | create =>
        exfalso
        rw [hmc hmode] at hc
        simp at hc
      | replace =>
        rw [hmode] at ih
        simp [dryRunLoop, hc, ih]
      | merge =>
        rw [hmode] at ih
        simp [dryRunLoop, hc, ih]
    · simp [dryRunLoop, hc, ih]

theorem liveLoop_success (fs : Fs) (t : String) (mode : ApplyMode) (cf : List String) :
    ∀ (files : List ConfigurationFile) (r : ApplyResult) (w : List ConfigurationFile),
      (liveLoop fs t mode cf files r w).1.success = r.success := by
  intro files
  induction files with
  | nil => intro r w; rfl
  | cons file rest ih =>
    intro r w
    by_cases hc : file.path ∈ cf
    · cases mode with
      | replace => simp [liveLoop, hc, ih]
      | create => simp [liveLoop, hc, ih]
      | merge =>
        cases hr : resolveSafePath t file.path with
        | error e => simp [liveLoop, hc, hr]
        | ok full =>
          cases hl : fsLookup fs full with
          | none => simp [liveLoop, hc, hr, hl]
          | some existingContent =>
            by_cases hm : (mergeContent existingContent file.content file.path).hasConflicts
            · simp [liveLoop, hc, hr, hl, hm, ih]
            · simp [liveLoop, hc, hr, hl, hm, ih]
    · simp [liveLoop, hc, ih]

theorem liveLoop_errors (fs : Fs) (t : String) (mode : ApplyMode) (cf : List String) :
    ∀ (files : List ConfigurationFile) (r : ApplyResult) (w : List ConfigurationFile),
      (liveLoop fs t mode cf files r w).1.errors = r.errors := by
  intro files
  induction files with
  | nil => intro r w; rfl
  | cons file rest ih =>
    intro r w
    by_cases hc : file.path ∈ cf
    · cases mode with
      | replace => simp [liveLoop, hc, ih]
      | create => simp [liveLoop, hc, ih]
      | merge =>
        cases hr : resolveSafePath t file.path with
        | error e => simp [liveLoop, hc, hr]
        | ok full =>
          cases hl : fsLookup fs full with
          | none => simp [liveLoop, hc, hr, hl]
          | some existingContent =>
            by_cases hm : (mergeContent existingContent file.content file.path).hasConflicts
            · simp [liveLoop, hc, hr, hl, hm, ih]
            · simp [liveLoop, hc, hr, hl, hm, ih]
    · simp [liveLoop, hc, ih]

end Cpm

namespace Cpm

theorem resolvedLoop_conflicts :
    ∀ (rcs : List ResolvedConflict) (r : ApplyResult) (w : List ConfigurationFile),
      (resolvedLoop rcs r w).1.conflicts = r.conflicts := by
  intro rcs
  induction rcs with
  | nil => intro r w; rfl
  | cons resolved rest ih =>
    intro r w
    by_cases h : resolved.resolution = .skip ∨ resolved.resolution = .keep
    · simp [resolvedLoop, h, ih]
    · simp [resolvedLoop, h, ih]

/-- Claim C2: for every `ApplyResult` returned by an apply call —
`applyConfiguration` in any mode (dry-run included) or
`applyWithResolvedConflicts` — success = true implies that the errors list
and the conflicts list are both empty. -/
theorem C2_success_implies_clean :
    ∀ (config : Configuration) (options : ApplyOptions) (lib : List (String × Configuration))
      (env : ApplyEnv) (result : ApplyResult) (fs' : Fs)
      (resolvedConflicts : List ResolvedConflict) (targetPath : String),
      (applyConfiguration config options lib env = .completed result fs' →
        result.success = true → result.errors = [] ∧ result.conflicts = []) ∧
      ((applyWithResolvedConflicts resolvedConflicts targetPath env).1.success = true →
        (applyWithResolvedConflicts resolvedConflicts targetPath env).1.errors = [] ∧
        (applyWithResolvedConflicts resolvedConflicts targetPath env).1.conflicts = []) := by
  intro config options lib env result fs' resolvedConflicts targetPath
  constructor
  · intro happ hsucc
    unfold applyConfiguration at happ
    cases hres : resolveInheritance config lib with
    | error e =>
      rw [hres] at happ
      injection happ with h1 h2
      subst h1
      simp [emptyResult] at hsucc
    | ok resolved =>
      rw [hres] at happ
      dsimp only at happ
      by_cases hmk : env.mkdirFail options.targetPath = true
      · rw [if_pos hmk] at happ
        injection happ with h1 h2
        subst h1
        simp [emptyResult] at hsucc
      · rw [if_neg hmk] at happ
        by_cases hcc : options.mode = ApplyMode.create ∧
          getConflictingFiles env.fs options.targetPath
            (List.map (fun f => f.path) resolved.resolvedFiles) ≠ []
        · rw [if_pos hcc] at happ
          by_cases hni : options.noInteractive = true
          · rw [if_pos hni] at happ
            cases happ
          · rw [if_neg hni] at happ
            rcases hbc : buildConflictInfos env.fs options.targetPath
              (getConflictingFiles env.fs options.targetPath
                (List.map (fun f => f.path) resolved.resolvedFiles))
              resolved.resolvedFiles [] with ⟨cs, thrown⟩
            rw [hbc] at happ
            cases thrown with
            | none =>
              injection happ with h1 h2
              subst h1
              simp [emptyResult] at hsucc
            | some msg =>
              injection happ with h1 h2
              subst h1
              simp [emptyResult] at hsucc
        · rw [if_neg hcc] at happ
          by_cases hdry : options.dryRun = true
          · rw [if_pos hdry] at happ
            injection happ with h1 h2
            subst h1
            refine ⟨?_, ?_⟩
            · simp [dryRunLoop_errors, emptyResult]
            · have hmc : options.mode = .create →
                  getConflictingFiles env.fs options.targetPath
                    (List.map (fun f => f.path) resolved.resolvedFiles) = [] := by
                intro hm
                by_contra hne
                exact hcc ⟨hm, hne⟩
              simp [dryRunLoop_conflicts _ _ hmc, emptyResult]
          · rw [if_neg hdry] at happ
            rcases hll : liveLoop env.fs options.targetPath options.mode
              (getConflictingFiles env.fs options.targetPath
                (List.map (fun f => f.path) resolved.resolvedFiles))
              resolved.resolvedFiles emptyResult [] with ⟨r1, w1, thrown⟩
            rw [hll] at happ
            cases thrown with
            | some msg =>
              dsimp only at happ
              injection happ with h1 h2
              subst h1
              have hs := liveLoop_success env.fs options.targetPath options.mode
                (getConflictingFiles env.fs options.targetPath
                  (List.map (fun f => f.path) resolved.resolvedFiles))
                resolved.resolvedFiles emptyResult []
              rw [hll] at hs
              simp [emptyResult] at hs
              simp [hs] at hsucc
            | none =>
              dsimp only at happ
              injection happ with h1 h2
              subst h1
              simp only [ApplyResult.success] at hsucc
              rw [Bool.and_eq_true] at hsucc
              obtain ⟨he, hcnil⟩ := hsucc
              rw [List.isEmpty_iff] at he hcnil
              exact ⟨he, hcnil⟩
  · intro hsucc
    unfold applyWithResolvedConflicts at hsucc ⊢
    refine ⟨?_, ?_⟩
    · simp only [ApplyResult.success] at hsucc
      rw [List.isEmpty_iff] at hsucc
      exact hsucc
    · simp [resolvedLoop_conflicts, emptyResult]

end Cpm

namespace Cpm

/-- Witness for C2 at a concrete successful apply (create mode on an empty
target) and a concrete `applyWithResolvedConflicts` call. -/
theorem C2_witness :
    (((⟨true, ["a.txt"], [], [], [], []⟩ : ApplyResult).errors = [] ∧
      (⟨true, ["a.txt"], [], [], [], []⟩ : ApplyResult).conflicts = []) ∧
     ((applyWithResolvedConflicts [] "/p" ⟨[], fun _ => false, fun _ => false⟩).1.errors = [] ∧
      (applyWithResolvedConflicts [] "/p" ⟨[], fun _ => false, fun _ => false⟩).1.conflicts = [])) :=
  have h := C2_success_implies_clean
    ⟨"c", none, [⟨"a.txt", "y", some .text, false, false⟩]⟩
    ⟨"/p", .create, false, false⟩ [] ⟨[], fun _ => false, fun _ => false⟩
    ⟨true, ["a.txt"], [], [], [], []⟩ [("/p/a.txt", "y")] [] "/p"
  ⟨h.1 rfl rfl, h.2 rfl⟩

/-- Witness for C8: a two-file configuration where "a.txt" already exists
at the target; the non-interactive create apply throws with exactly that
path and the file system is untouched. -/
theorem C8_witness :
    applyConfiguration
        ⟨"c", none, [⟨"a.txt", "y", some .text, false, false⟩,
                     ⟨"b.txt", "z", some .text, false, false⟩]⟩
        ⟨"/p", .create, false, true⟩ []
        ⟨[("/p/a.txt", "x")], fun _ => false, fun _ => false⟩ =
      .conflictThrown ["a.txt"] [("/p/a.txt", "x")] :=
  (C8_create_noninteractive_conflict
    ⟨"c", none, [⟨"a.txt", "y", some .text, false, false⟩,
                 ⟨"b.txt", "z", some .text, false, false⟩]⟩
    ⟨"/p", .create, false, true⟩ []
    ⟨[("/p/a.txt", "x")], fun _ => false, fun _ => false⟩
    ⟨["c"], [⟨"a.txt", "y", some .text, false, false⟩,
             ⟨"b.txt", "z", some .text, false, false⟩]⟩
    rfl rfl rfl rfl (by decide)).1

/-- Claim C3 (code bug): dry-run and live classification diverge.  With
target file "a.txt" containing "x" and a merge-mode apply of content "y"
(a plain-text merge, which produces conflict markers), the dry run
reports the file in `filesModified` with no conflicts and success = true,
while the live run with identical inputs reports it in `conflicts` (and
not in `filesModified`) with success = false; the dry run leaves the file
system unchanged. -/
theorem C3_dry_live_divergence :
    applyConfiguration ⟨"c", none, [⟨"a.txt", "y", some .text, false, false⟩]⟩
        ⟨"/proj", .merge, true, false⟩ []
        ⟨[("/proj/a.txt", "x")], fun _ => false, fun _ => false⟩ =
      .completed ⟨true, [], ["a.txt"], [], [], []⟩ [("/proj/a.txt", "x")] ∧
    applyConfiguration ⟨"c", none, [⟨"a.txt", "y", some .text, false, false⟩]⟩
        ⟨"/proj", .merge, false, false⟩ []
        ⟨[("/proj/a.txt", "x")], fun _ => false, fun _ => false⟩ =
      .completed
        ⟨false, [], [], [],
         [⟨"a.txt", "x", "y", some "<<<<<<< EXISTING\nx\n=======\ny\n>>>>>>> NEW"⟩], []⟩
        [("/proj/a.txt", "x")] :=
  ⟨rfl, rfl⟩

end Cpm

namespace Cpm

/-! ## C5: yaml content merge -/

/-- Counterexample for C5 as stated: with empty incoming content the yaml
merge does not keep the existing content — it returns the empty incoming
content. -/
theorem C5_counterexample :
    (Merger.mergeYaml "a: 1" "").content = "" ∧
    (Merger.mergeYaml "a: 1" "").content ≠ "a: 1" :=
  ⟨rfl, by decide⟩

/-- Claim C5 (amended): the ContentMerger yaml merge always returns the
incoming content — also when the incoming content is empty — with
success = true and hasConflicts = false; `mergeContent` on a ".yaml" path
dispatches to it. -/
theorem C5_mergeYaml_amended :
    ∀ existing newContent : String,
      Merger.mergeYaml existing newContent =
        { success := true, content := newContent, hasConflicts := false, conflictMarkers := 0 } ∧
      mergeContentAt .yaml existing newContent = Merger.mergeYaml existing newContent ∧
      mergeContent existing newContent "config.yaml" = Merger.mergeYaml existing newContent :=
  fun _ _ => ⟨rfl, rfl, rfl⟩

/-! ## C7: conflict marker count -/

/-- Claim C7 (code bug): the conflict result hard-codes
`conflictMarkers = 1`.  When the existing text itself contains a
conflict-marker line, the returned content has two lines beginning with
"<<<<<<<" (and the repository's own `countConflictMarkers` counts 2), yet
`conflictMarkers` is 1. -/
theorem C7_conflictMarkers_hardcoded :
    (mergeContent "<<<<<<< a\nx" "y" "notes.txt").conflictMarkers = 1 ∧
    conflictBlockStarts (mergeContent "<<<<<<< a\nx" "y" "notes.txt").content = 2 ∧
    countConflictMarkers (mergeContent "<<<<<<< a\nx" "y" "notes.txt").content = 2 ∧
    (mergeContent "<<<<<<< a\nx" "y" "notes.txt").hasConflicts = true :=
  ⟨rfl, rfl, rfl, rfl⟩

/-! ## C6: the resolver merges with its own helpers, not with ContentMerger -/

theorem overlayGo_fst (ns : List (String × String)) :
    ∀ (m : List (String × String)) (cf : List String),
      (Merger.overlayGo m ns cf).1 = Resolver.overlayGo m ns := by
  induction ns with
  | nil => intro m cf; rfl
  | cons hc rest ih =>
    intro m cf
    obtain ⟨h, c⟩ := hc
    simp only [Merger.overlayGo, Resolver.overlayGo]
    exact ih _ _

/-- Counterexample for C6 as stated: for a text-type entry the resolver
takes the child content verbatim, while ContentMerger produces a
conflict-marker wrapping — the two contents differ. -/
theorem C6_counterexample :
    (mergeFiles ⟨"a.txt", "x", some .text, false, false⟩
      ⟨"a.txt", "y", some .text, false, false⟩).content = "y" ∧
    (mergeContent "x" "y" "a.txt").content =
      "<<<<<<< EXISTING\nx\n=======\ny\n>>>>>>> NEW" ∧
    (mergeFiles ⟨"a.txt", "x", some .text, false, false⟩
      ⟨"a.txt", "y", some .text, false, false⟩).content ≠
      (mergeContent "x" "y" "a.txt").content :=
  ⟨rfl, rfl, by decide⟩

/-- Claim C6 (amended): the inheritance fold merges a non-override,
non-exclude child entry with its own type-dispatched merge at the
effective type (child type, falling back to the parent entry type).  That
agrees with ContentMerger for markdown, and for json when both sides
parse; but for unparseable json and for text the resolver takes the child
content (no conflict markers), and for yaml it keeps the parent content
when the child content is empty whereas ContentMerger always takes the
incoming content. -/
theorem C6_mergeFiles_characterization :
    ∀ parent child : ConfigurationFile,
      (mergeFiles parent child).path = child.path ∧
      (mergeFiles parent child).type = (child.type <|> parent.type) ∧
      (mergeFiles parent child).content =
        (match child.type <|> parent.type with
         | some .markdown => (mergeContentAt .markdown parent.content child.content).content
         | some .json =>
           (match jsonParse parent.content, jsonParse child.content with
            | some _, some _ => (mergeContentAt .json parent.content child.content).content
            | _, _ => child.content)
         | some .yaml => if child.content = "" then parent.content else child.content
         | _ => child.content) := by
  intro parent child
  refine ⟨rfl, rfl, ?_⟩
  cases ht : child.type <|> parent.type with
  | none => simp [mergeFiles, ht]
  | some t =>
    cases t with
    | markdown =>
      simp only [mergeFiles, ht, mergeContentAt, Merger.mergeMarkdown,
        Resolver.mergeMarkdown]
      rw [overlayGo_fst]
    | json =>
      cases hp : jsonParse parent.content with
      | none => simp [mergeFiles, ht, Resolver.mergeJson, hp]
      | some pv =>
        cases hc : jsonParse child.content with
        | none => simp [mergeFiles, ht, Resolver.mergeJson, hp, hc]
        | some cv =>
          simp [mergeFiles, ht, Resolver.mergeJson, mergeContentAt, Merger.mergeJson, hp, hc]
    | yaml => simp [mergeFiles, ht, Resolver.mergeYaml]
    | text => simp [mergeFiles, ht]

end Cpm

namespace Cpm

/-! ## C10: write-failure bookkeeping in the live apply -/

theorem liveLoop_w_mono (fs : Fs) (t : String) (mode : ApplyMode) (cf : List String) :
    ∀ (files : List ConfigurationFile) (r : ApplyResult) (w : List ConfigurationFile)
      (f : ConfigurationFile), f ∈ w → f ∈ (liveLoop fs t mode cf files r w).2.1 := by
  intro files
  induction files with
  | nil => intro r w f hf; exact hf
  | cons file rest ih =>
    intro r w f hf
    by_cases hc : cf.contains file.path = true
    · cases mode with
      | replace =>
        simp only [liveLoop]
        rw [if_pos hc]
        exact ih _ _ _ (List.mem_append_left _ hf)
      | create =>
        simp only [liveLoop]
        rw [if_pos hc]
        exact ih _ _ _ hf
      | merge =>
        simp only [liveLoop]
        rw [if_pos hc]
        cases hr : resolveSafePath t file.path with
        | error e => exact hf
        | ok full =>
          dsimp only
          cases hl : fsLookup fs full with
          | none => exact hf
          | some existingContent =>
            dsimp only
            by_cases hm : (mergeContent existingContent file.content file.path).hasConflicts = true
            · rw [if_pos hm]
              exact ih _ _ _ hf
            · rw [if_neg hm]
              exact ih _ _ _ (List.mem_append_left _ hf)
    · simp only [liveLoop]
      rw [if_neg hc]
      exact ih _ _ _ (List.mem_append_left _ hf)

theorem liveLoop_mem_writes (fs : Fs) (t : String) (mode : ApplyMode) (cf : List String) :
    ∀ (files : List ConfigurationFile) (r : ApplyResult) (w : List ConfigurationFile) (p : String),
      (p ∈ (liveLoop fs t mode cf files r w).1.filesCreated ∨
        p ∈ (liveLoop fs t mode cf files r w).1.filesModified) →
      (p ∈ r.filesCreated ∨ p ∈ r.filesModified) ∨
        ∃ f ∈ (liveLoop fs t mode cf files r w).2.1, f.path = p := by
  intro files
  induction files with
  | nil => intro r w p h; exact Or.inl h
  | cons file rest ih =>
    intro r w p h
    by_cases hc : cf.contains file.path = true
    · cases mode with
      | replace =>
        simp only [liveLoop] at h ⊢
        rw [if_pos hc] at h ⊢
        rcases ih _ _ _ h with hin | hex
        · rcases hin with hin | hin
          · exact Or.inl (Or.inl hin)
          · rcases List.mem_append.mp hin with hin | hin
            · exact Or.inl (Or.inr hin)
            · refine Or.inr ⟨file, ?_, (List.mem_singleton.mp hin).symm⟩
              exact liveLoop_w_mono fs t .replace cf rest _ _ _
                (List.mem_append_right _ (List.mem_singleton.mpr rfl))
        · exact Or.inr hex
      | create =>
        simp only [liveLoop] at h ⊢
        rw [if_pos hc] at h ⊢
        rcases ih _ _ _ h with hin | hex
        · exact Or.inl hin
        · exact Or.inr hex
      | merge =>
        simp only [liveLoop] at h ⊢
        rw [if_pos hc] at h ⊢
        cases hr : resolveSafePath t file.path with
        | error e =>
          rw [hr] at h
          exact Or.inl h
        | ok full =>
          rw [hr] at h
          dsimp only at h ⊢
          cases hl : fsLookup fs full with
          | none =>
            rw [hl] at h
            exact Or.inl h
          | some existingContent =>
            rw [hl] at h
            dsimp only at h ⊢
            by_cases hm : (mergeContent existingContent file.content file.path).hasConflicts = true
            · rw [if_pos hm] at h ⊢
              rcases ih _ _ _ h with hin | hex
              · exact Or.inl hin
              · exact Or.inr hex
            · rw [if_neg hm] at h ⊢
              rcases ih _ _ _ h with hin | hex
              · rcases hin with hin | hin
                · exact Or.inl (Or.inl hin)
                · rcases List.mem_append.mp hin with hin | hin
                  · exact Or.inl (Or.inr hin)
                  · refine Or.inr
                      ⟨{ file with
                          content := (mergeContent existingContent file.content file.path).content },
                        ?_, (List.mem_singleton.mp hin).symm⟩
                    exact liveLoop_w_mono fs t .merge cf rest _ _ _
                      (List.mem_append_right _ (List.mem_singleton.mpr rfl))
              · exact Or.inr hex
    · simp only [liveLoop] at h ⊢
      rw [if_neg hc] at h ⊢
      rcases ih _ _ _ h with hin | hex
      · rcases hin with hin | hin
        · rcases List.mem_append.mp hin with hin | hin
          · exact Or.inl (Or.inl hin)
          · refine Or.inr ⟨file, ?_, (List.mem_singleton.mp hin).symm⟩
            exact liveLoop_w_mono fs t mode cf rest _ _ _
              (List.mem_append_right _ (List.mem_singleton.mpr rfl))
        · exact Or.inl (Or.inr hin)
      · exact Or.inr hex

theorem liveLoop_no_throw (fs : Fs) (t : String) (mode : ApplyMode) (cf : List String)
    (hcf : ∀ q ∈ cf, fileExists fs t q = true) :
    ∀ (files : List ConfigurationFile) (r : ApplyResult) (w : List ConfigurationFile),
      (liveLoop fs t mode cf files r w).2.2 = none := by
  intro files
  induction files with
  | nil => intro r w; rfl
  | cons file rest ih =>
    intro r w
    by_cases hc : cf.contains file.path = true
    · cases mode with
      | replace =>
        simp only [liveLoop]
        rw [if_pos hc]
        exact ih _ _
      | create =>
        simp only [liveLoop]
        rw [if_pos hc]
        exact ih _ _
      | merge =>
        have hex : fileExists fs t file.path = true := hcf file.path (by simpa using hc)
        unfold fileExists at hex
        simp only [liveLoop]
        rw [if_pos hc]
        cases hr : resolveSafePath t file.path with
        | error e => rw [hr] at hex; cases hex
        | ok full =>
          rw [hr] at hex
          dsimp only at hex
          dsimp only
          cases hl : fsLookup fs full with
          | none => rw [hl] at hex; simp at hex
          | some existingContent =>
            dsimp only
            by_cases hm : (mergeContent existingContent file.content file.path).hasConflicts = true
            · rw [if_pos hm]
              exact ih _ _
            · rw [if_neg hm]
              exact ih _ _
    · simp only [liveLoop]
      rw [if_neg hc]
      exact ih _ _

end Cpm

namespace Cpm

theorem writeFilesGo_errors_mono (env : ApplyEnv) (t : String) :
    ∀ (files : List ConfigurationFile) (fs : Fs) (created errors : List String) (e : String),
      e ∈ errors → e ∈ (writeFilesGo env t files fs created errors).2.1 := by
  intro files
  induction files with
  | nil => intro fs created errors e he; exact he
  | cons file rest ih =>
    intro fs created errors e he
    simp only [writeFilesGo]
    cases hr : resolveSafePath t file.path with
    | error pe => exact ih _ _ _ _ (List.mem_append_left _ he)
    | ok full =>
      dsimp only
      by_cases hmk : env.mkdirFail (dirnameAbs full) = true
      · rw [if_pos hmk]
        exact ih _ _ _ _ (List.mem_append_left _ he)
      · rw [if_neg hmk]
        by_cases hwf : env.writeFail full = true
        · rw [if_pos hwf]
          exact ih _ _ _ _ (List.mem_append_left _ he)
        · rw [if_neg hwf]
          exact ih _ _ _ _ he

theorem writeFilesGo_fail_mem (env : ApplyEnv) (t : String) :
    ∀ (files : List ConfigurationFile) (fs : Fs) (created errors : List String)
      (f : ConfigurationFile), f ∈ files → writeAttemptFails env t f.path = true →
      ∃ m, ("Failed to write " ++ f.path ++ ": " ++ m) ∈ (writeFilesGo env t files fs created errors).2.1 := by
  intro files
  induction files with
  | nil => intro fs created errors f hf; cases hf
  | cons file rest ih =>
    intro fs created errors f hf hfail
    rcases List.mem_cons.mp hf with heq | hmemrest
    · subst heq
      unfold writeAttemptFails at hfail
      simp only [writeFilesGo]
      cases hr : resolveSafePath t f.path with
      | error pe =>
        exact ⟨pathErrorMessage pe f.path,
          writeFilesGo_errors_mono env t rest _ _ _ _
            (List.mem_append_right _ (List.mem_singleton.mpr rfl))⟩
      | ok full =>
        rw [hr] at hfail
        dsimp only at hfail
        dsimp only
        by_cases hmk : env.mkdirFail (dirnameAbs full) = true
        · rw [if_pos hmk]
          exact ⟨permissionDeniedMessage (dirnameAbs full),
            writeFilesGo_errors_mono env t rest _ _ _ _
              (List.mem_append_right _ (List.mem_singleton.mpr rfl))⟩
        · rw [if_neg hmk]
          have hwf : env.writeFail full = true := by
            rcases (by simpa using hfail :
                env.mkdirFail (dirnameAbs full) = true ∨ env.writeFail full = true) with h | h
            · exact absurd h hmk
            · exact h
          rw [if_pos hwf]
          exact ⟨permissionDeniedMessage full,
            writeFilesGo_errors_mono env t rest _ _ _ _
              (List.mem_append_right _ (List.mem_singleton.mpr rfl))⟩
    · simp only [writeFilesGo]
      cases hr : resolveSafePath t file.path with
      | error pe => exact ih _ _ _ _ hmemrest hfail
      | ok full =>
        dsimp only
        by_cases hmk : env.mkdirFail (dirnameAbs full) = true
        · rw [if_pos hmk]
          exact ih _ _ _ _ hmemrest hfail
        · rw [if_neg hmk]
          by_cases hwf : env.writeFail full = true
          · rw [if_pos hwf]
            exact ih _ _ _ _ hmemrest hfail
          · rw [if_neg hwf]
            exact ih _ _ _ _ hmemrest hfail

theorem writeFilesGo_preserves_failed_path (env : ApplyEnv) (t : String) (full : String)
    (hfa : env.mkdirFail (dirnameAbs full) = true ∨ env.writeFail full = true) :
    ∀ (files : List ConfigurationFile) (fs : Fs) (created errors : List String),
      fsLookup (writeFilesGo env t files fs created errors).2.2 full = fsLookup fs full := by
  intro files
  induction files with
  | nil => intro fs created errors; rfl
  | cons file rest ih =>
    intro fs created errors
    simp only [writeFilesGo]
    cases hr : resolveSafePath t file.path with
    | error pe => exact ih _ _ _
    | ok full' =>
      dsimp only
      by_cases hmk : env.mkdirFail (dirnameAbs full') = true
      · rw [if_pos hmk]
        exact ih _ _ _
      · rw [if_neg hmk]
        by_cases hwf : env.writeFail full' = true
        · rw [if_pos hwf]
          exact ih _ _ _
        · rw [if_neg hwf]
          rw [ih _ _ _]
          have hne : full' ≠ full := by
            intro hfe
            subst hfe
            rcases hfa with h | h
            · exact hmk h
            · exact hwf h
          exact mapFind?_mapSet_ne fs full' full _ hne

end Cpm

namespace Cpm

/-- Claim C10: in a live (non-dry-run) apply, each file's path is recorded
in `filesCreated` or `filesModified` during classification, before the
batch write; if that file's write then fails, the path stays listed while
the failure is appended to `errors` and `success` is false, and the file
was not actually written (its resolved location is unchanged on disk) —
so membership in `filesCreated`/`filesModified` does not imply a completed
write. -/
theorem C10_write_failure_reporting (config : Configuration) (options : ApplyOptions)
    (lib : List (String × Configuration)) (env : ApplyEnv) (result : ApplyResult) (fs' : Fs)
    (p : String)
    (hdry : options.dryRun = false)
    (happ : applyConfiguration config options lib env = .completed result fs')
    (hmem : p ∈ result.filesCreated ∨ p ∈ result.filesModified)
    (hfail : writeAttemptFails env options.targetPath p = true) :
    result.success = false ∧
    (∃ m, ("Failed to write " ++ p ++ ": " ++ m) ∈ result.errors) ∧
    (∀ full, resolveSafePath options.targetPath p = .ok full →
      fsLookup fs' full = fsLookup env.fs full) := by
  unfold applyConfiguration at happ
  cases hres : resolveInheritance config lib with
  | error e =>
    rw [hres] at happ
    injection happ with h1 h2
    subst h1
    simp [emptyResult] at hmem
  | ok resolved =>
    rw [hres] at happ
    dsimp only at happ
    by_cases hmk : env.mkdirFail options.targetPath = true
    · rw [if_pos hmk] at happ
      injection happ with h1 h2
      subst h1
      simp [emptyResult] at hmem
    · rw [if_neg hmk] at happ
      by_cases hcc : options.mode = ApplyMode.create ∧
        getConflictingFiles env.fs options.targetPath
          (List.map (fun f => f.path) resolved.resolvedFiles) ≠ []
      · rw [if_pos hcc] at happ
        by_cases hni : options.noInteractive = true
        · rw [if_pos hni] at happ
          cases happ
        · rw [if_neg hni] at happ
          rcases hbc : buildConflictInfos env.fs options.targetPath
            (getConflictingFiles env.fs options.targetPath
              (List.map (fun f => f.path) resolved.resolvedFiles))
            resolved.resolvedFiles [] with ⟨cs, thrown⟩
          rw [hbc] at happ
          cases thrown with
          | none =>
            injection happ with h1 h2
            subst h1
            simp [emptyResult] at hmem
          | some msg =>
            injection happ with h1 h2
            subst h1
            simp [emptyResult] at hmem
      · rw [if_neg hcc] at happ
        rw [hdry] at happ
        simp only [Bool.false_eq_true, if_false] at happ
        have hcfall : ∀ q ∈ getConflictingFiles env.fs options.targetPath
            (List.map (fun f => f.path) resolved.resolvedFiles),
            fileExists env.fs options.targetPath q = true := by
          intro q hq
          rw [getConflictingFiles_eq_filter] at hq
          exact (List.mem_filter.mp hq).2
        have hnt := liveLoop_no_throw env.fs options.targetPath options.mode
          (getConflictingFiles env.fs options.targetPath
            (List.map (fun f => f.path) resolved.resolvedFiles)) hcfall
          resolved.resolvedFiles emptyResult []
        rcases hll : liveLoop env.fs options.targetPath options.mode
          (getConflictingFiles env.fs options.targetPath
            (List.map (fun f => f.path) resolved.resolvedFiles))
          resolved.resolvedFiles emptyResult [] with ⟨r1, w1, thrown⟩
        rw [hll] at happ hnt
        dsimp only at hnt
        subst hnt
        dsimp only at happ
        injection happ with h1 h2
        subst h1
        subst h2
        dsimp only at hmem
        have hmem1 := liveLoop_mem_writes env.fs options.targetPath options.mode
          (getConflictingFiles env.fs options.targetPath
            (List.map (fun f => f.path) resolved.resolvedFiles))
          resolved.resolvedFiles emptyResult [] p
        rw [hll] at hmem1
        rcases hmem1 hmem with hbase | ⟨f, hfw, hfp⟩
        · simp [emptyResult] at hbase
        · have hw1ne : w1 ≠ [] := by
            intro he
            rw [he] at hfw
            cases hfw
          rw [if_pos hw1ne]
          have hfail2 : writeAttemptFails env options.targetPath f.path = true := by
            rw [hfp]; exact hfail
          obtain ⟨m, hm⟩ :=
            writeFilesGo_fail_mem env options.targetPath w1 env.fs [] [] f hfw hfail2
          rw [hfp] at hm
          have herrs : ("Failed to write " ++ p ++ ": " ++ m) ∈
              r1.errors ++ (writeFilesToProject env w1 options.targetPath env.fs).2.1 :=
            List.mem_append_right _ hm
          refine ⟨?_, ⟨m, herrs⟩, ?_⟩
          · show ((r1.errors ++
                (writeFilesToProject env w1 options.targetPath env.fs).2.1).isEmpty &&
                r1.conflicts.isEmpty) = false
            have h0 : (r1.errors ++
                (writeFilesToProject env w1 options.targetPath env.fs).2.1).isEmpty = false := by
              rw [List.isEmpty_eq_false]
              exact List.ne_nil_of_mem herrs
            rw [h0, Bool.false_and]
          · intro full hfull
            have hfa : env.mkdirFail (dirnameAbs full) = true ∨ env.writeFail full = true := by
              unfold writeAttemptFails at hfail
              rw [hfull] at hfail
              dsimp only at hfail
              simpa using hfail
            exact writeFilesGo_preserves_failed_path env options.targetPath full hfa
              w1 env.fs [] []

end Cpm

namespace Cpm

/-- Witness for C10: a one-file create apply where the write of
"/p/a.txt" fails with EACCES — the path is still listed in
`filesCreated`, the failure is in `errors`, success is false, and
nothing was written. -/
theorem C10_witness :
    ((⟨false, ["a.txt"], [], [], [],
        ["Failed to write a.txt: Permission denied: cannot access \"/p/a.txt\""]⟩ :
        ApplyResult).success = false) ∧
    (∃ m, ("Failed to write " ++ "a.txt" ++ ": " ++ m) ∈
      (⟨false, ["a.txt"], [], [], [],
        ["Failed to write a.txt: Permission denied: cannot access \"/p/a.txt\""]⟩ :
        ApplyResult).errors) ∧
    (∀ full, resolveSafePath "/p" "a.txt" = .ok full →
      fsLookup ([] : Fs) full =
        fsLookup (ApplyEnv.fs ⟨[], fun _ => false, fun q => q == "/p/a.txt"⟩) full) :=
  C10_write_failure_reporting
    ⟨"c", none, [⟨"a.txt", "y", some .text, false, false⟩]⟩
    ⟨"/p", .create, false, false⟩ []
    ⟨[], fun _ => false, fun q => q == "/p/a.txt"⟩
    ⟨false, ["a.txt"], [], [], [],
      ["Failed to write a.txt: Permission denied: cannot access \"/p/a.txt\""]⟩
    [] "a.txt" rfl rfl (Or.inl (List.mem_singleton.mpr rfl)) rfl

end Cpm

namespace Cpm

/-! ## C4: markdown merge -/

theorem parseGo_keys_nodup :
    ∀ (ls : List String) (hdr : String) (cur : List String) (acc : List (String × String)),
      (mapKeys acc).Nodup → (mapKeys (parseGo ls hdr cur acc)).Nodup := by
  intro ls
  induction ls with
  | nil =>
    intro hdr cur acc hacc
    simp only [parseGo]
    by_cases h : hdr ≠ "" ∨ cur ≠ []
    · rw [if_pos h]
      exact mapKeys_mapSet_nodup _ _ _ hacc
    · rw [if_neg h]
      exact hacc
  | cons l ls ih =>
    intro hdr cur acc hacc
    simp only [parseGo]
    by_cases hh : isHeaderLine l = true
    · rw [if_pos hh]
      by_cases h : hdr ≠ "" ∨ cur ≠ []
      · rw [if_pos h]
        exact ih _ _ _ (mapKeys_mapSet_nodup _ _ _ hacc)
      · rw [if_neg h]
        exact ih _ _ _ hacc
    · rw [if_neg hh]
      exact ih _ _ _ hacc

theorem parseMarkdownSections_keys_nodup (s : String) :
    (mapKeys (parseMarkdownSections s)).Nodup :=
  parseGo_keys_nodup _ _ _ _ (by simp [mapKeys])

theorem overlayGo_snd_nil_iff :
    ∀ (ns : List (String × String)) (m : List (String × String)) (cf : List String),
      (mapKeys ns).Nodup →
      ((Merger.overlayGo m ns cf).2 = [] ↔
        (cf = [] ∧ ∀ hc ∈ ns, ((mapFind? m hc.1).any fun c2 => c2 ≠ hc.2) = false)) := by
  intro ns
  induction ns with
  | nil =>
    intro m cf _
    simp [Merger.overlayGo]
  | cons hc0 rest ih =>
    intro m cf hnd
    obtain ⟨h, c⟩ := hc0
    have hnd' : (mapKeys rest).Nodup := (List.nodup_cons.mp (by simpa [mapKeys] using hnd)).2
    have hnmem : h ∉ mapKeys rest := (List.nodup_cons.mp (by simpa [mapKeys] using hnd)).1
    simp only [Merger.overlayGo]
    by_cases hcond : ((mapFind? m h).any fun c2 => c2 ≠ c) = true
    · rw [if_pos hcond]
      rw [ih _ _ hnd']
      constructor
      · rintro ⟨habs, -⟩
        exact absurd habs (by simp)
      · rintro ⟨-, hall⟩
        have := hall (h, c) (List.mem_cons_self _ _)
        rw [this] at hcond
        cases hcond
    · rw [if_neg hcond]
      rw [ih _ _ hnd']
      have hfind : ∀ hc2 ∈ rest, mapFind? (mapSet m h c) hc2.1 = mapFind? m hc2.1 := by
        intro hc2 hmem
        apply mapFind?_mapSet_ne
        intro heq
        exact hnmem (heq ▸ List.mem_map_of_mem (fun p => p.1) hmem)
      constructor
      · rintro ⟨hcf, hall⟩
        refine ⟨hcf, ?_⟩
        intro hc2 hmem
        rcases List.mem_cons.mp hmem with heq | hmem2
        · subst heq
          simpa using hcond
        · rw [← hfind hc2 hmem2]
          exact hall hc2 hmem2
      · rintro ⟨hcf, hall⟩
        refine ⟨hcf, ?_⟩
        intro hc2 hmem2
        rw [hfind hc2 hmem2]
        exact hall hc2 (List.mem_cons_of_mem _ hmem2)

/-- Counterexample for C4 as stated: merging the spec's own example inputs
yields success = false and hasConflicts = true (section "# B" exists on
both sides with different bodies), not success = true / hasConflicts =
false. -/
theorem C4_counterexample :
    (Merger.mergeMarkdown "# A\nfoo\n# B\nbar" "# B\nbaz\n# C\nqux").success = false ∧
    (Merger.mergeMarkdown "# A\nfoo\n# B\nbar" "# B\nbaz\n# C\nqux").hasConflicts = true :=
  ⟨rfl, rfl⟩

/-- Claim C4 (amended): the markdown merge overlays incoming sections onto
the existing ones (in place for an existing heading, appended for a new
one — the content equals the resolver-style overlay of the parsed section
maps), and reports a conflict exactly when some incoming section's
heading already exists with different content: success = ¬hasConflicts,
and hasConflicts holds iff such a section exists.  In particular the
spec's example yields sections A,B,C in order with B's body replaced by
"baz", but with success = false and hasConflicts = true. -/
theorem C4_mergeMarkdown_amended :
    Merger.mergeMarkdown "# A\nfoo\n# B\nbar" "# B\nbaz\n# C\nqux" =
      { success := false, content := "# A\nfoo\n# B\nbaz\n# C\nqux",
        hasConflicts := true, conflictMarkers := 1 } ∧
    (∀ existing newContent : String,
      (Merger.mergeMarkdown existing newContent).success =
        !(Merger.mergeMarkdown existing newContent).hasConflicts ∧
      ((Merger.mergeMarkdown existing newContent).hasConflicts = true ↔
        ∃ hc ∈ parseMarkdownSections newContent,
          ((mapFind? (parseMarkdownSections existing) hc.1).any fun c2 => c2 ≠ hc.2) = true) ∧
      (Merger.mergeMarkdown existing newContent).content =
        reconstructSections
          (Resolver.overlayGo (parseMarkdownSections existing)
            (parseMarkdownSections newContent))) := by
  refine ⟨rfl, ?_⟩
  intro existing newContent
  refine ⟨?_, ?_, ?_⟩
  · simp [Merger.mergeMarkdown, Bool.not_not]
  · simp only [Merger.mergeMarkdown]
    rw [Bool.not_eq_true']
    rw [List.isEmpty_eq_false]
    rw [ne_eq]
    rw [overlayGo_snd_nil_iff _ _ _ (parseMarkdownSections_keys_nodup newContent)]
    simp
  · simp only [Merger.mergeMarkdown]
    rw [overlayGo_fst]

end Cpm

namespace Cpm

/-! ## C1: PathGuard -/

theorem strData_append (a b : String) : (a ++ b).data = a.data ++ b.data := rfl

theorem splitChars_ne_nil (sep : Char) : ∀ cs : List Char, splitChars sep cs ≠ [] := by
  intro cs
  induction cs with
  | nil => simp [splitChars]
  | cons c rest ih =>
    by_cases h : c = sep
    · simp [splitChars, h]
    · simp only [splitChars, if_neg h]
      cases hs : splitChars sep rest with
      | nil => simp
      | cons s ss => simp

theorem splitChars_append_sep (sep : Char) :
    ∀ a b : List Char, splitChars sep (a ++ sep :: b) = splitChars sep a ++ splitChars sep b := by
  intro a b
  induction a with
  | nil => simp [splitChars]
  | cons c rest ih =>
    by_cases h : c = sep
    · subst h
      simp only [List.cons_append, splitChars, if_pos rfl, List.nil_append,
        List.append_eq, if_true, List.cons.injEq, true_and]
      exact ih
    · simp only [List.cons_append, splitChars, if_neg h, List.append_eq]
      rw [ih]
      cases hs : splitChars sep rest with
      | nil => exact absurd hs (splitChars_ne_nil sep rest)
      | cons s ss => simp

theorem segs_append (a b : String) : segs (a ++ "/" ++ b) = segs a ++ segs b := by
  unfold segs
  have hdata : (a ++ "/" ++ b).data = a.data ++ '/' :: b.data := by
    rw [strData_append, strData_append]
    simp
  rw [hdata, splitChars_append_sep, List.map_append, List.filter_append]

theorem normSegs_step_noDotDot :
    ∀ (ys : List String) (acc : List String), (∀ s ∈ ys, s ≠ "..") →
      List.foldl
        (fun acc seg =>
          if seg = "." then acc
          else if seg = ".." then acc.dropLast
          else acc ++ [seg]) acc ys = acc ++ ys.filter (fun s => s ≠ ".") := by
  intro ys
  induction ys with
  | nil => intro acc _; simp
  | cons y rest ih =>
    intro acc hy
    by_cases hdot : y = "."
    · subst hdot
      simp only [List.foldl_cons, if_pos rfl, List.filter_cons]
      rw [ih _ (fun s hs => hy s (List.mem_cons_of_mem _ hs))]
      simp
    · have hdd : y ≠ ".." := hy y (List.mem_cons_self _ _)
      simp only [List.foldl_cons, if_neg hdot, if_neg hdd, List.filter_cons]
      rw [ih _ (fun s hs => hy s (List.mem_cons_of_mem _ hs))]
      simp [hdot]

theorem normSegs_append_noDotDot (xs ys : List String) (h : ∀ s ∈ ys, s ≠ "..") :
    normSegs (xs ++ ys) = normSegs xs ++ ys.filter (fun s => s ≠ ".") := by
  unfold normSegs
  rw [List.foldl_append]
  exact normSegs_step_noDotDot ys _ h

theorem renderChars_append (xs ys : List String) :
    renderChars (xs ++ ys) = renderChars xs ++ renderChars ys := by
  induction xs with
  | nil => simp [renderChars]
  | cons x rest ih => simp [renderChars, ih]

theorem segs_no_empty (s : String) : "" ∉ segs s := by
  unfold segs
  intro h
  have := List.of_mem_filter h
  simp at this

theorem listStartsWith_append_same :
    ∀ x y z : List Char, listStartsWith (x ++ y) (x ++ z) = listStartsWith y z := by
  intro x y z
  induction x with
  | nil => rfl
  | cons c rest ih => simp [listStartsWith, ih]

end Cpm

namespace Cpm

/-- Counterexample for C1 as stated: with the base directory "/" (the
filesystem root), the plain relative path "a" — no ".." segments at all,
and its resolution "/a" lies inside "/" — is rejected with OUTSIDE_BASE
instead of succeeding, because the `base + sep` check becomes a
`startsWith "//"` test that "/a" fails. -/
theorem C1_counterexample :
    resolveSafePath "/" "a" = .error .OUTSIDE_BASE ∧ ".." ∉ segs "a" :=
  ⟨rfl, by decide⟩

/-- Claim C1 (amended): for every absolute base directory that does not
normalize to the filesystem root "/", and every candidate path:
an empty path throws EMPTY; an absolute path, a Windows drive-letter
form, or a UNC form throws NOT_RELATIVE (on this POSIX model, as on any
host); when the normalized resolution of the path against the base
escapes the base (it is neither the base nor base-plus-separator
prefixed) the guard throws OUTSIDE_BASE; every other relative path —
including ones with non-escaping ".." segments — succeeds and returns an
absolute path that is the base or has base plus the separator as a
prefix; in particular every relative path with no ".." segment at all
succeeds. -/
theorem C1_resolveSafePath_spec (baseDir p : String)
    (_hb : jsStartsWith baseDir "/" = true)
    (hroot : normalizeAbs baseDir ≠ "/") :
    (p = "" → resolveSafePath baseDir p = .error .EMPTY) ∧
    (p ≠ "" → (isWindowsDrive p = true ∨ isUnc p = true ∨ jsStartsWith p "/" = true) →
      resolveSafePath baseDir p = .error .NOT_RELATIVE) ∧
    (p ≠ "" → isWindowsDrive p = false → isUnc p = false → jsStartsWith p "/" = false →
      ((jsResolve baseDir p ≠ normalizeAbs baseDir ∧
          jsStartsWith (jsResolve baseDir p) (normalizeAbs baseDir ++ "/") = false) →
        resolveSafePath baseDir p = .error .OUTSIDE_BASE)) ∧
    (p ≠ "" → isWindowsDrive p = false → isUnc p = false → jsStartsWith p "/" = false →
      (¬(jsResolve baseDir p ≠ normalizeAbs baseDir ∧
          jsStartsWith (jsResolve baseDir p) (normalizeAbs baseDir ++ "/") = false) →
        resolveSafePath baseDir p = .ok (jsResolve baseDir p) ∧
        (jsResolve baseDir p = normalizeAbs baseDir ∨
          jsStartsWith (jsResolve baseDir p) (normalizeAbs baseDir ++ "/") = true))) ∧
    (p ≠ "" → isWindowsDrive p = false → isUnc p = false → jsStartsWith p "/" = false →
      ".." ∉ segs p →
      resolveSafePath baseDir p = .ok (jsResolve baseDir p) ∧
      (jsResolve baseDir p = normalizeAbs baseDir ∨
        jsStartsWith (jsResolve baseDir p) (normalizeAbs baseDir ++ "/") = true)) := by
  have hred : ∀ (hne : p ≠ "") (hd : isWindowsDrive p = false) (hu : isUnc p = false)
      (hs0 : jsStartsWith p "/" = false),
      resolveSafePath baseDir p =
        if (jsResolve baseDir p ≠ normalizeAbs baseDir ∧
            jsStartsWith (jsResolve baseDir p) (normalizeAbs baseDir ++ "/") = false)
        then .error .OUTSIDE_BASE else .ok (jsResolve baseDir p) := by
    intro hne hd hu hs0
    unfold resolveSafePath
    rw [if_neg hne]
    rw [if_neg (show ¬((isWindowsDrive p || isUnc p) = true) by simp [hd, hu])]
    rw [if_neg (show ¬(jsStartsWith p "/" = true) by simp [hs0])]
  refine ⟨?_, ?_, ?_, ?_, ?_⟩
  · intro he
    simp [resolveSafePath, he]
  · intro hne hcase
    by_cases hdu : (isWindowsDrive p || isUnc p) = true
    · simp [resolveSafePath, hne, hdu]
    · rcases hcase with h | h | h
      · exact absurd (by simp [h] : (isWindowsDrive p || isUnc p) = true) hdu
      · exact absurd (by simp [h] : (isWindowsDrive p || isUnc p) = true) hdu
      · simp [resolveSafePath, hne, hdu, h]
  · intro hne hd hu hs0 hout
    rw [hred hne hd hu hs0, if_pos hout]
  · intro hne hd hu hs0 hnot
    rw [hred hne hd hu hs0, if_neg hnot]
    refine ⟨rfl, ?_⟩
    by_cases heq : jsResolve baseDir p = normalizeAbs baseDir
    · exact Or.inl heq
    · right
      by_contra hfalse
      exact hnot ⟨heq, by simpa using hfalse⟩
  · intro hne hd hu hs0 hdd
    have hnodd : ∀ s ∈ segs p, s ≠ ".." := by
      intro s hs hcontra
      subst hcontra
      exact hdd hs
    have hsegs : segs (baseDir ++ "/" ++ p) = segs baseDir ++ segs p := segs_append baseDir p
    have hnorm : normSegs (segs baseDir ++ segs p) =
        normSegs (segs baseDir) ++ (segs p).filter (fun s => s ≠ ".") :=
      normSegs_append_noDotDot _ _ hnodd
    have hbsne : normSegs (segs baseDir) ≠ [] := by
      intro h0
      apply hroot
      unfold normalizeAbs
      rw [h0]
      rfl
    have hfull : jsResolve baseDir p =
        renderAbs (normSegs (segs baseDir) ++ (segs p).filter (fun s => s ≠ ".")) := by
      unfold jsResolve normalizeAbs
      rw [hsegs, hnorm]
    cases hq : (segs p).filter (fun s => s ≠ ".") with
    | nil =>
      have heq : jsResolve baseDir p = normalizeAbs baseDir := by
        rw [hfull, hq, List.append_nil]
        rfl
      rw [hred hne hd hu hs0, if_neg (fun hand => hand.1 heq)]
      exact ⟨rfl, Or.inl heq⟩
    | cons q qs' =>
      have hpre : jsStartsWith (jsResolve baseDir p) (normalizeAbs baseDir ++ "/") = true := by
        rw [hfull, hq]
        have hne2 : normSegs (segs baseDir) ++ q :: qs' ≠ [] := by simp
        unfold normalizeAbs renderAbs
        rw [if_neg hne2, if_neg hbsne]
        unfold jsStartsWith
        have h2 : (String.mk (renderChars (normSegs (segs baseDir) ++ q :: qs'))).data =
            renderChars (normSegs (segs baseDir)) ++ ('/' :: (q.data ++ renderChars qs')) := by
          show renderChars (normSegs (segs baseDir) ++ q :: qs') = _
          rw [renderChars_append]
          rfl
        have h1 : (String.mk (renderChars (normSegs (segs baseDir))) ++ "/").data =
            renderChars (normSegs (segs baseDir)) ++ ['/'] := rfl
        rw [h1, h2]
        rw [show ('/' :: (q.data ++ renderChars qs')) = ['/'] ++ (q.data ++ renderChars qs')
          from rfl] at *
        rw [listStartsWith_append_same
          (renderChars (normSegs (segs baseDir))) ['/'] (['/'] ++ (q.data ++ renderChars qs'))]
        simp [listStartsWith]
      rw [hred hne hd hu hs0,
        if_neg (fun hand => by rw [hpre] at hand; exact absurd hand.2 (by simp))]
      exact ⟨rfl, Or.inr hpre⟩

/-- Witness for C1: apply the amended theorem at a concrete non-root base
and a dot-free relative path. -/
theorem C1_witness :
    resolveSafePath "/base" "docs/setup.md" = .ok (jsResolve "/base" "docs/setup.md") :=
  ((C1_resolveSafePath_spec "/base" "docs/setup.md" (by decide) (by decide)).2.2.2.2
    (by decide) (by decide) (by decide) (by decide) (by decide)).1

end Cpm
